import Mathlib

/-!
Shallow embedding of `verify_bandersnatch.py`, a script that reconciles a
declared authoritative list of PyPI package artifacts against an on-disk
bandersnatch mirror, and verification of the specification claims about it.

Conventions of the embedding:
* Python `str` values are Lean `String`s; character-level operations work on
  `String.data` (`List Char`).  `str.lower` is modelled by `Char.toLower`
  (ASCII case folding, which is what package names use).
* Python `bytes` are `List Nat` (each entry a byte value).
* The filesystem is an explicit parameter `fs : String → Option (List Nat)`
  mapping a path to the bytes of the file stored there (`none` = no file).
* Python `dict`s are association lists with first-match lookup and
  replace-in-place insertion; Python `set`s of strings / records are
  `Finset`s.
* `hashlib.sha256` objects are modelled by the bytes fed so far (hashlib
  specifies `update` as concatenation); the digest itself is a full
  implementation of FIPS 180-4 SHA-256 over the accumulated bytes.
* Python exceptions (the parse failure and `assert` failures) are modelled
  with `Except String`.
-/

deriving instance DecidableEq for Except

namespace VerifyBandersnatch

/-! ### PyPiPackageName (verify_bandersnatch.py lines 25-42) -/

/-- Single-character replacement; `str.replace` with a one-character pattern
replaces exactly the occurrences of that character. -/
def replChar (pat rep c : Char) : Char := if c = pat then rep else c

/-- The comparable form computed by `PyPiPackageName.__init__`:
`name.replace("_", "-").replace(".", "-").lower()`. -/
def comparableOf (name : List Char) : List Char :=
  ((name.map (replChar '_' '-')).map (replChar '.' '-')).map Char.toLower

/-- String-level wrapper for the comparable form. -/
def comparableName (s : String) : String := String.mk (comparableOf s.data)

/-- The `PyPiPackageName` object: the raw name together with the derived
`_comparable_name` field. -/
structure PyPiPackageName where
  name : String
  comparable_name : String
deriving DecidableEq

/-- The constructor `PyPiPackageName(name)`. -/
def pyPiPackageName (name : String) : PyPiPackageName :=
  ⟨name, comparableName name⟩

/-- A dynamic Python value, as far as `PyPiPackageName.__eq__` can observe it:
the `assert type(__o) == PyPiPackageName` check distinguishes exact
`PyPiPackageName` instances from everything else (including instances of
proper subclasses, strings, `None`, numbers, ...). -/
inductive PyVal where
  | pkgName (p : PyPiPackageName)
  | pkgSubclass (p : PyPiPackageName)
  | strVal (s : String)
  | noneVal
  | intVal (n : Int)
deriving DecidableEq

/-- `PyPiPackageName.__eq__`: asserts that the other operand has exact type
`PyPiPackageName`, then compares the `_comparable_name` fields. -/
def PyPiPackageName.eqPy (self : PyPiPackageName) (o : PyVal) : Except String Bool :=
  match o with
  | .pkgName q => .ok (self.comparable_name == q.comparable_name)
  | _ => .error "AssertionError"

/-- `PyPiPackageName.__hash__`: `hash(self._comparable_name)`. -/
def PyPiPackageName.hashPy (self : PyPiPackageName) : UInt64 :=
  hash self.comparable_name

/-- Evaluation of the expression `self == o` for an exact `PyPiPackageName`
left operand, following the CPython rich-comparison protocol: when the right
operand's type is a proper subclass of the left's, the reflected method is
tried first, and a subclass that merely inherits
`PyPiPackageName.__eq__` (the `pkgSubclass` case) therefore runs
`o.__eq__(self)`, whose `assert type(self) == PyPiPackageName` succeeds;
every other non-`PyPiPackageName` operand reaches `self.__eq__(o)` and
trips the assertion. -/
def PyPiPackageName.pyEqOp (self : PyPiPackageName) (o : PyVal) : Except String Bool :=
  match o with
  | .pkgName q => self.eqPy (.pkgName q)
  | .pkgSubclass q => .ok (q.comparable_name == self.comparable_name)
  | other => self.eqPy other

/-- Two characters that differ only by letter case, or only by substituting
among the separator characters underscore, dot and dash. -/
def charSimilar (c d : Char) : Prop :=
  Char.toLower c = Char.toLower d ∨ (c ∈ ['_', '.', '-'] ∧ d ∈ ['_', '.', '-'])

instance : DecidableRel charSimilar := fun c d => by
  unfold charSimilar; infer_instance

/-! ### SHA-256 (the model of `hashlib.sha256`) -/

/-- Combine two 32-bit values bit by bit with `f` acting on single bits. -/
def bitwise2 (f : Nat → Nat → Nat) : Nat → Nat → Nat → Nat
  | 0, _, _ => 0
  | k + 1, a, b => f (a % 2) (b % 2) + 2 * bitwise2 f k (a / 2) (b / 2)

/-- 32-bit exclusive or. -/
def xor32 (a b : Nat) : Nat := bitwise2 (fun x y => (x + y) % 2) 32 a b

/-- 32-bit bitwise and. -/
def and32 (a b : Nat) : Nat := bitwise2 (fun x y => x * y) 32 a b

/-- 32-bit bitwise complement (on values below 2^32). -/
def not32 (a : Nat) : Nat := 4294967295 - a % 4294967296

/-- 32-bit addition. -/
def add32 (a b : Nat) : Nat := (a + b) % 4294967296

/-- 32-bit rotate right. -/
def ror32 (x n : Nat) : Nat :=
  let y := x % 4294967296
  y / 2 ^ n + y % 2 ^ n * 2 ^ (32 - n)

/-- Logical shift right. -/
def shr32 (x n : Nat) : Nat := x / 2 ^ n

/-- Split a list into consecutive chunks of `n` elements (the final chunk may
be shorter); this is both the 64-byte block structure of SHA-256 and the
shape of the `fh.read(4096)` loop in `FullFileRef.test`. -/
def chunksOf (n : Nat) : List α → List (List α)
  | [] => []
  | x :: xs =>
    if _h : n = 0 then []
    else List.take n (x :: xs) :: chunksOf n (List.drop n (x :: xs))
termination_by l => l.length
decreasing_by simp; omega

/-- Big-endian value of a byte list. -/
def bytesToWordBE (bs : List Nat) : Nat := bs.foldl (fun acc b => acc * 256 + b % 256) 0

/-- Big-endian byte expansion of `v` into `k` bytes. -/
def toBytesBE : Nat → Nat → List Nat
  | 0, _ => []
  | k + 1, v => toBytesBE k (v / 256) ++ [v % 256]

/-- The 64 SHA-256 round constants, written in decimal. -/
def sha256K : List Nat :=
  [1116352408, 1899447441, 3049323471, 3921009573, 961987163,
   1508970993, 2453635748, 2870763221, 3624381080, 310598401,
   607225278, 1426881987, 1925078388, 2162078206, 2614888103,
   3248222580, 3835390401, 4022224774, 264347078, 604807628,
   770255983, 1249150122, 1555081692, 1996064986, 2554220882,
   2821834349, 2952996808, 3210313671, 3336571891, 3584528711,
   113926993, 338241895, 666307205, 773529912, 1294757372,
   1396182291, 1695183700, 1986661051, 2177026350, 2456956037,
   2730485921, 2820302411, 3259730800, 3345764771, 3516065817,
   3600352804, 4094571909, 275423344, 430227734, 506948616,
   659060556, 883997877, 958139571, 1322822218, 1537002063,
   1747873779, 1955562222, 2024104815, 2227730452, 2361852424,
   2428436474, 2756734187, 3204031479, 3329325298]

/-- The eight SHA-256 initial hash words, written in decimal. -/
def sha256H0 : List Nat :=
  [1779033703, 3144134277, 1013904242, 2773480762,
   1359893119, 2600822924, 528734635, 1541459225]

def smallSigma0 (x : Nat) : Nat := xor32 (xor32 (ror32 x 7) (ror32 x 18)) (shr32 x 3)

def smallSigma1 (x : Nat) : Nat := xor32 (xor32 (ror32 x 17) (ror32 x 19)) (shr32 x 10)

def bigSigma0 (x : Nat) : Nat := xor32 (xor32 (ror32 x 2) (ror32 x 13)) (ror32 x 22)

def bigSigma1 (x : Nat) : Nat := xor32 (xor32 (ror32 x 6) (ror32 x 11)) (ror32 x 25)

/-- Extend the 16 message words of a block by `k` further schedule words. -/
def extendWords : List Nat → Nat → List Nat
  | w, 0 => w
  | w, k + 1 =>
    extendWords
      (w ++ [add32 (add32 (w.getD (w.length - 16) 0) (smallSigma0 (w.getD (w.length - 15) 0)))
             (add32 (w.getD (w.length - 7) 0) (smallSigma1 (w.getD (w.length - 2) 0)))]) k

/-- One SHA-256 compression round on the eight-word working state. -/
def roundStep (st : List Nat) (kw : Nat × Nat) : List Nat :=
  match st with
  | [a, b, c, d, e, f, g, h] =>
    let t1 := add32 (add32 (add32 h (bigSigma1 e))
                (add32 (xor32 (and32 e f) (and32 (not32 e) g)) kw.1)) kw.2
    let t2 := add32 (bigSigma0 a)
                (xor32 (xor32 (and32 a b) (and32 a c)) (and32 b c))
    [add32 t1 t2, a, b, c, add32 d t1, e, f, g]
  | _ => st

/-- Compress one 64-byte block into the running eight-word hash state. -/
def compressBlock (h : List Nat) (block : List Nat) : List Nat :=
  let w := extendWords ((chunksOf 4 block).map bytesToWordBE) 48
  let st := (sha256K.zip w).foldl roundStep h
  (h.zip st).map (fun p => add32 p.1 p.2)

/-- FIPS 180-4 padding: a 0x80 byte, zeros up to 56 mod 64, and the
big-endian 64-bit bit length. -/
def sha256pad (msg : List Nat) : List Nat :=
  msg ++ 0x80 :: (List.replicate ((119 - msg.length % 64) % 64) 0 ++ toBytesBE 8 (8 * msg.length))

/-- The eight 32-bit words of the SHA-256 digest of a byte sequence. -/
def sha256words (msg : List Nat) : List Nat :=
  (chunksOf 64 (sha256pad msg)).foldl compressBlock sha256H0

def hexChar (n : Nat) : Char := if n < 10 then Char.ofNat (48 + n) else Char.ofNat (87 + n)

/-- Lowercase hexadecimal rendering of `v` using `k` digits, most significant
first. -/
def natHex : Nat → Nat → List Char
  | 0, _ => []
  | k + 1, v => natHex k (v / 16) ++ [hexChar (v % 16)]

/-- The lowercase-hex SHA-256 digest of a byte sequence, the single-pass
reference hash. -/
def sha256hex (msg : List Nat) : String :=
  String.mk (((sha256words msg).map (natHex 8)).flatten)

/-- A `hashlib.sha256()` object.  Its observable state is the sequence of
bytes fed so far: hashlib specifies that `m.update(a); m.update(b)` is
equivalent to `m.update(a + b)`, so the digest is a pure function of the
concatenation of all data fed. -/
structure Sha256Ctx where
  fed : List Nat
deriving DecidableEq

/-- A fresh `hashlib.sha256()`. -/
def sha256New : Sha256Ctx := ⟨[]⟩

/-- `update`. -/
def Sha256Ctx.update (ctx : Sha256Ctx) (data : List Nat) : Sha256Ctx := ⟨ctx.fed ++ data⟩

/-- `hexdigest`. -/
def Sha256Ctx.hexdigest (ctx : Sha256Ctx) : String := sha256hex ctx.fed

/-! ### File references (verify_bandersnatch.py lines 45-74) -/

/-- `FullFileRef`: a file reference that also carries the resolved on-disk
path (the mirror side). -/
structure FullFileRef where
  name : String
  sha256hash : String
  path : String
deriving DecidableEq

/-- `FileRef`: either a plain declared-only reference (the base class, as
instantiated by `parse_files_txt`) or a resolvable `FullFileRef` (the
subclass instantiated by `parse_web_dir`). -/
inductive FileRef where
  | base (name sha256hash : String)
  | full (f : FullFileRef)
deriving DecidableEq

/-- The `name` attribute of a file reference. -/
def FileRef.name : FileRef → String
  | .base n _ => n
  | .full f => f.name

/-- The `sha256hash` attribute of a file reference. -/
def FileRef.sha256hash : FileRef → String
  | .base _ h => h
  | .full f => f.sha256hash

/-- Whether a reference is (exactly) a `FullFileRef`, as tested by
`type(file_to_check) == FullFileRef`. -/
def FileRef.isFull : FileRef → Bool
  | .base _ _ => false
  | .full _ => true

/-- `FullFileRef.test(check_hash)`: fail if the path does not exist; when
`check_hash` is set, stream the file in 4096-byte chunks through a running
sha256 and fail on digest mismatch; otherwise succeed. -/
def FullFileRef.test (fs : String → Option (List Nat)) (check_hash : Bool)
    (self : FullFileRef) : Bool :=
  match fs self.path with
  | none => false
  | some data =>
    if check_hash then
      let filehash := (chunksOf 4096 data).foldl Sha256Ctx.update sha256New
      if filehash.hexdigest ≠ self.sha256hash then false else true
    else true

/-! ### Project (verify_bandersnatch.py lines 80-93) -/

/-- Association-list model of a Python `dict`: lookup finds the first (and
only) binding of a key. -/
def dictLookup {α : Type} (k : String) : List (String × α) → Option α
  | [] => none
  | (k0, v0) :: rest => if k0 = k then some v0 else dictLookup k rest

/-- `d[k] = v` on the association-list model: replace the binding in place if
the key is present, otherwise append it. -/
def dictInsert {α : Type} (k : String) (v : α) : List (String × α) → List (String × α)
  | [] => [(k, v)]
  | (k0, v0) :: rest => if k0 = k then (k, v) :: rest else (k0, v0) :: dictInsert k v rest

/-- Python `set.add` on a list-modelled set. -/
def listSetAdd (x : FileRef) (s : List FileRef) : List FileRef :=
  if x ∈ s then s else s ++ [x]

/-- `Project`: a package name, the version-to-files dict `self.versions`, and
the filename-to-reference dict `self.files`. -/
structure Project where
  name : String
  versions : List (String × List FileRef)
  files : List (String × FileRef)
deriving DecidableEq

/-- `Project(name)`. -/
def Project.init (name : String) : Project := ⟨name, [], []⟩

/-- `Project.add_file(version, file)`.  The source reads
`version_files = self.versions.get(version, set())` and then calls
`version_files.add(file)`: when the key is present this mutates the stored
set in place (modelled by re-inserting the grown set), but when it is absent
the grown set is the fresh default and is never written back into
`self.versions`, so an absent key stays absent.  Finally
`self.files[file.name] = file`. -/
def Project.add_file (self : Project) (version : Option String) (file : FileRef) : Project :=
  let versions :=
    match version with
    | some v =>
      match dictLookup v self.versions with
      | some version_files => dictInsert v (listSetAdd file version_files) self.versions
      | none => self.versions
    | none => self.versions
  { self with versions := versions, files := dictInsert file.name file self.files }

/-! ### Filters and the authoritative-file parser
    (verify_bandersnatch.py lines 95-126) -/

/-- The filter abstraction: a predicate on `(project, version, filename)`.
`parse_files_txt` takes an optional one. -/
abbrev FilterFn := String → String → String → Bool

/-- Whether a row passes: rows are skipped exactly when
`filter is not None and not filter(project, version, filename)`. -/
def filterPass (filter : Option FilterFn) (project version filename : String) : Bool :=
  match filter with
  | none => true
  | some f => f project version filename

/-- Python `str.rstrip()`: drop trailing whitespace. -/
def pyIsSpace (c : Char) : Bool :=
  c = ' ' || c = '\t' || c = '\n' || c = '\x0d' || c = '\x0b' || c = '\x0c'

def pyRstrip (l : List Char) : List Char := (l.reverse.dropWhile pyIsSpace).reverse

/-- A lowercase-hex digit, the character class `[a-f0-9]`. -/
def hexDigit (c : Char) : Bool := ('a' ≤ c && c ≤ 'f') || ('0' ≤ c && c ≤ '9')

/-- The tail matcher for `([a-f0-9]{64})$`: exactly 64 hex digits ending the
line. -/
def hashTail (l : List Char) : Option (List Char) :=
  if l.length = 64 && l.all hexDigit then some l else none

/-- Backtracking matcher for one non-greedy group `(.+?),` followed by a
continuation `k`: try each comma in order from the left; the group before it
must be non-empty and free of newlines (`.` does not match a newline, while
`,` itself is matched by `.` when the split at an earlier comma fails).
`pre` holds the reversed candidate group accumulated so far. -/
def scanGroup {α : Type} (k : List Char → Option α) :
    List Char → List Char → Option (List Char × α)
  | _, [] => none
  | pre, c :: rest =>
    if c = '\n' then none
    else if c = ',' && !pre.isEmpty then
      match k rest with
      | some a => some (pre.reverse, a)
      | none => scanGroup k (c :: pre) rest
    else scanGroup k (c :: pre) rest

/-- The row pattern of `parse_files_txt`:
`^(.+?),(.+?),(.+?),([a-f0-9]{64})$` with Python backtracking semantics,
returning the four captured groups. -/
def rowMatch (line : List Char) :
    Option (List Char × List Char × List Char × List Char) :=
  scanGroup (fun r1 => scanGroup (fun r2 => scanGroup hashTail [] r2) [] r1) [] line

/-- A catalog: the Python `dict[PyPiPackageName, Project]`, keyed by package
identity (dict key equality is `PyPiPackageName.__eq__`, i.e. equality of
comparable forms). -/
abbrev Catalog := List (PyPiPackageName × Project)

/-- Keys of a catalog as a set; since dict identity is the comparable form,
the key set is the set of comparable forms. -/
def catalogKeys (c : Catalog) : Finset String :=
  (c.map (fun e => e.1.comparable_name)).toFinset

/-- Dict lookup by package-identity equality. -/
def catalogFind (c : Catalog) (k : String) : Option Project :=
  (c.find? (fun e => e.1.comparable_name = k)).map Prod.snd

/-- Dict subscription `c[k]` for a key known to be present (absent keys give
the empty dummy project). -/
def catalogGet (c : Catalog) (k : String) : Project :=
  (catalogFind c k).getD (Project.init "")

/-- `results.setdefault(PyPiPackageName(project), Project(project))
.add_file(version, file)`: fold one parsed row into the catalog. -/
def catalogAddFile (key : PyPiPackageName) (projectRaw version : String)
    (file : FileRef) : Catalog → Catalog
  | [] => [(key, (Project.init projectRaw).add_file (some version) file)]
  | (k, proj) :: rest =>
    if k.comparable_name = key.comparable_name then
      (k, proj.add_file (some version) file) :: rest
    else
      (k, proj) :: catalogAddFile key projectRaw version file rest

/-- The loop body of `parse_files_txt` over the (already split) lines of the
authoritative file, carrying the accumulated `results` dict. -/
def parseGo (filter : Option FilterFn) (results : Catalog) :
    List String → Except String Catalog
  | [] => .ok results
  | rawLine :: rest =>
    let line := pyRstrip rawLine.data
    match rowMatch line with
    | none => .error ("Error parsing: >" ++ String.mk line ++ "<")
    | some (project, version, filename, filehash) =>
      let project := String.mk project
      let version := String.mk version
      let filename := String.mk filename
      let filehash := String.mk filehash
      if filterPass filter project version filename then
        parseGo filter
          (catalogAddFile (pyPiPackageName project) project version
            (FileRef.base filename filehash) results) rest
      else
        parseGo filter results rest

/-- `parse_files_txt`: parse every line of the authoritative file, aborting
with an error on the first malformed line. -/
def parse_files_txt (filter : Option FilterFn) (lines : List String) :
    Except String Catalog :=
  parseGo filter [] lines

/-! ### The reconciliation engine (verify_bandersnatch.py lines 179-229) -/

/-- `csv_package_names - bandersnatch_package_names`. -/
def packages_missing_from_bandersnatch (csv bs : Catalog) : Finset String :=
  catalogKeys csv \ catalogKeys bs

/-- `bandersnatch_package_names - csv_package_names`. -/
def packages_only_in_bandersnatch (csv bs : Catalog) : Finset String :=
  catalogKeys bs \ catalogKeys csv

/-- The subset of the unexpected packages whose inventory is non-empty
(`len(bandersnatch_packages[packagename].files) > 0`). -/
def packages_with_files_only_in_bandersnatch (csv bs : Catalog) : Finset String :=
  (packages_only_in_bandersnatch csv bs).filter
    (fun pk => 0 < (catalogGet bs pk).files.length)

/-- `bandersnatch_package_names & csv_package_names`. -/
def packages_in_both (csv bs : Catalog) : Finset String :=
  catalogKeys bs ∩ catalogKeys csv

/-- The filename keys of a project's `files` dict, as a set
(`set(project.files.keys())`). -/
def fileNames (p : Project) : Finset String := (p.files.map Prod.fst).toFinset

/-- The `FullFileRef` values among the entries of a `files` dict. -/
def listFullRefs (L : List (String × FileRef)) : Finset FullFileRef :=
  (L.filterMap (fun e => match e.2 with
    | FileRef.full f => some f
    | FileRef.base _ _ => none)).toFinset

/-- The `FullFileRef` values stored in a project's `files` dict. -/
def projFullFiles (p : Project) : Finset FullFileRef :=
  listFullRefs p.files

/-- Whether every entry of a project's `files` dict is (exactly) a
`FullFileRef`, as the engine's per-file `assert` demands.  This holds for
every project built by `parse_web_dir`, which only creates `FullFileRef`
instances. -/
def projectAllFull (p : Project) : Bool :=
  p.files.all (fun e => e.2.isFull)

/-- Right fold of unions, the accumulated result of `|=`-style updates over
a list of packages. -/
def unionList {α β : Type} [DecidableEq β] (L : List α) (f : α → Finset β) : Finset β :=
  L.foldr (fun a acc => f a ∪ acc) ∅

/-- The engine's mutable accumulators: `missing_files`, `unexpected_files`
and `files_to_check`. -/
structure EngineState where
  missing_files : Finset String
  unexpected_files : Finset String
  files_to_check : Finset FullFileRef
deriving DecidableEq

/-- The inner loop
`for file_to_check in bandersnatch_packages[packagename].files.values()`:
assert that each value is exactly a `FullFileRef` and add it to
`files_to_check`. -/
def addFilesToCheck : EngineState → List (String × FileRef) → Except String EngineState
  | st, [] => .ok st
  | _, (_, FileRef.base _ _) :: _ => .error "AssertionError"
  | st, (_, FileRef.full f) :: rest =>
    addFilesToCheck { st with files_to_check := insert f st.files_to_check } rest

/-- One iteration of `for packagename in packages_in_both`. -/
def engineStep (csv bs : Catalog) (st : EngineState) (packagename : String) :
    Except String EngineState :=
  let bandersnatch_filenames := fileNames (catalogGet bs packagename)
  let pypi_filenames := fileNames (catalogGet csv packagename)
  addFilesToCheck
    { st with
        missing_files := st.missing_files ∪ (pypi_filenames \ bandersnatch_filenames),
        unexpected_files :=
          st.unexpected_files ∪ (bandersnatch_filenames \ pypi_filenames) }
    (catalogGet bs packagename).files

/-- The members of `packages_in_both` as a concrete list (Python iterates
the set in an arbitrary order; this fixes one order — mirror-side insertion
order — and the accumulated results are sets, independent of the order). -/
def inBothList (csv bs : Catalog) : List String :=
  ((bs.map (fun e => e.1.comparable_name)).dedup).filter
    (fun k => k ∈ csv.map (fun e => e.1.comparable_name))

/-- The whole per-package reconciliation loop, starting from empty
accumulators. -/
def runEngine (csv bs : Catalog) : Except String EngineState :=
  (inBothList csv bs).foldlM (engineStep csv bs) ⟨∅, ∅, ∅⟩

/-- Everything `main` reports: the two package discrepancy sets, the two
file discrepancy sets, the verification candidates, and the contents of
`bad_files.txt` (the candidates whose `test` fails). -/
structure RunOutputs where
  missing_packages : Finset String
  unexpected_packages : Finset String
  missing_files : Finset String
  unexpected_files : Finset String
  files_to_check : Finset FullFileRef
  bad_files : Finset FullFileRef
deriving DecidableEq

/-- The whole run of `main` after argument parsing: parse the authoritative
file, reconcile against the mirror catalog `bs`, and test every candidate
file against the filesystem `fs`. -/
def runAll (fs : String → Option (List Nat)) (check_hashes : Bool)
    (filter : Option FilterFn) (lines : List String) (bs : Catalog) :
    Except String RunOutputs :=
  match parse_files_txt filter lines with
  | .error e => .error e
  | .ok csv =>
    match runEngine csv bs with
    | .error e => .error e
    | .ok st =>
      .ok
        { missing_packages := packages_missing_from_bandersnatch csv bs,
          unexpected_packages := packages_with_files_only_in_bandersnatch csv bs,
          missing_files := st.missing_files,
          unexpected_files := st.unexpected_files,
          files_to_check := st.files_to_check,
          bad_files :=
            st.files_to_check.filter
              (fun r => FullFileRef.test fs check_hashes r = false) }

/-! ### Concrete fixtures used by the witness theorems -/

/-- A syntactically valid 64-character lowercase-hex hash field. -/
def hexA64 : String := String.mk (List.replicate 64 'a')

/-- A two-file filesystem fixture. -/
def fsDemo : String → Option (List Nat) :=
  fun p => if p = "present" then some [] else none

/-- An authoritative catalog fixture: one package with files `a` and `b`. -/
def csvDemo : Catalog :=
  [(pyPiPackageName "Pkg.A",
    ⟨"Pkg.A", [], [("a", FileRef.base "a" "h1"), ("b", FileRef.base "b" "h2")]⟩)]

/-- A mirror catalog fixture: the same package (spelled differently) with
files `b` and `d`. -/
def bsDemo : Catalog :=
  [(pyPiPackageName "pkg_a",
    ⟨"pkg_a", [],
     [("b", FileRef.full ⟨"b", "h2", "/p/b"⟩), ("d", FileRef.full ⟨"d", "h4", "/p/d"⟩)]⟩)]

/-- The engine state that reconciling `csvDemo` against `bsDemo` reaches. -/
def stDemo : EngineState :=
  match runEngine csvDemo bsDemo with
  | .ok st => st
  | .error _ => ⟨∅, ∅, ∅⟩

/-- A one-row authoritative file fixture. -/
def linesDemo : List String := ["Pkg.A,1.0,a," ++ hexA64]

/-- The catalog that parsing `linesDemo` produces. -/
def parsedDemo : Catalog :=
  match parse_files_txt none linesDemo with
  | .ok c => c
  | .error _ => []

/-- An inclusion predicate that keeps only the project named `keep`. -/
def filterKeepDemo : FilterFn := fun project _ _ => project == "keep"

/-! ## Helper lemmas -/

theorem flatten_chunksOf {α : Type} (n : Nat) (hn : 0 < n) (l : List α) :
    (chunksOf n l).flatten = l := by
  generalize hl : l.length = N
  induction N using Nat.strong_induction_on generalizing l with
  | _ N ih =>
    match l with
    | [] => simp [chunksOf]
    | x :: xs =>
      rw [chunksOf, dif_neg (Nat.pos_iff_ne_zero.mp hn), List.flatten_cons,
        ih ((x :: xs).drop n).length (by subst hl; simp; omega) _ rfl]
      exact List.take_append_drop n (x :: xs)

theorem foldl_update_fed (chunks : List (List Nat)) :
    ∀ ctx : Sha256Ctx, (chunks.foldl Sha256Ctx.update ctx).fed = ctx.fed ++ chunks.flatten := by
  induction chunks with
  | nil => intro ctx; simp
  | cons c cs ih =>
    intro ctx
    simp only [List.foldl_cons, List.flatten_cons, ih, Sha256Ctx.update, List.append_assoc]

theorem streamedDigest (chunks : List (List Nat)) :
    (chunks.foldl Sha256Ctx.update sha256New).hexdigest = sha256hex chunks.flatten := by
  simp [Sha256Ctx.hexdigest, foldl_update_fed, sha256New]

theorem charToLower_def (c : Char) :
    c.toLower = if c.toNat ≥ 65 ∧ c.toNat ≤ 90 then Char.ofNat (c.toNat + 32) else c := rfl

theorem charOfNat_toNat (n : Nat) (hv : n.isValidChar) : (Char.ofNat n).toNat = n := by
  rw [Char.ofNat, dif_pos hv]
  simp [Char.ofNatAux, Char.toNat, UInt32.toNat]

theorem toLower_eq_nonalpha (c d : Char) (hd : d.toNat < 97 ∨ 122 < d.toNat)
    (h : Char.toLower c = d) : c = d := by
  rw [charToLower_def] at h
  by_cases hc : c.toNat ≥ 65 ∧ c.toNat ≤ 90
  · exfalso
    rw [if_pos hc] at h
    have hv : (c.toNat + 32).isValidChar := Or.inl (by omega)
    have ht := charOfNat_toNat (c.toNat + 32) hv
    rw [h] at ht
    omega
  · rwa [if_neg hc] at h

theorem comparableOf_eq_map (l : List Char) :
    comparableOf l = l.map (fun c => Char.toLower (replChar '.' '-' (replChar '_' '-' c))) := by
  simp only [comparableOf, List.map_map]
  rfl

theorem normChar_eq_of_similar (c d : Char) (h : charSimilar c d) :
    Char.toLower (replChar '.' '-' (replChar '_' '-' c))
      = Char.toLower (replChar '.' '-' (replChar '_' '-' d)) := by
  rcases h with h | ⟨hc, hd⟩
  · by_cases h1 : c = '_'
    · subst h1
      have hd' : Char.toLower d = '_' := by
        have e : Char.toLower '_' = '_' := by decide
        rw [e] at h; exact h.symm
      rw [toLower_eq_nonalpha d '_' (by decide) hd']
    · by_cases h2 : c = '.'
      · subst h2
        have hd' : Char.toLower d = '.' := by
          have e : Char.toLower '.' = '.' := by decide
          rw [e] at h; exact h.symm
        rw [toLower_eq_nonalpha d '.' (by decide) hd']
      · by_cases h3 : d = '_'
        · subst h3
          have hc' : Char.toLower c = '_' := by
            have e : Char.toLower '_' = '_' := by decide
            rw [e] at h; exact h
          exact absurd (toLower_eq_nonalpha c '_' (by decide) hc') h1
        · by_cases h4 : d = '.'
          · subst h4
            have hc' : Char.toLower c = '.' := by
              have e : Char.toLower '.' = '.' := by decide
              rw [e] at h; exact h
            exact absurd (toLower_eq_nonalpha c '.' (by decide) hc') h2
          · rw [show replChar '_' '-' c = c from if_neg h1,
              show replChar '.' '-' c = c from if_neg h2,
              show replChar '_' '-' d = d from if_neg h3,
              show replChar '.' '-' d = d from if_neg h4]
            exact h
  · fin_cases hc <;> fin_cases hd <;> rfl

theorem map_eq_of_forall₂ {f : Char → Char} {l₁ l₂ : List Char}
    (h : List.Forall₂ charSimilar l₁ l₂) (hf : ∀ a b, charSimilar a b → f a = f b) :
    l₁.map f = l₂.map f := by
  induction h with
  | nil => rfl
  | cons hab _ ih => simp [hf _ _ hab, ih]

theorem comparable_eq_of_similar {s t : String}
    (h : List.Forall₂ charSimilar s.data t.data) :
    comparableName s = comparableName t := by
  apply String.ext
  show comparableOf s.data = comparableOf t.data
  rw [comparableOf_eq_map, comparableOf_eq_map]
  exact map_eq_of_forall₂ h (fun a b hab => by
    by_cases ha : a = '-'
    · subst ha
      rcases hab with hab | ⟨_, hb⟩
      · exact normChar_eq_of_similar _ _ (Or.inl hab)
      · exact normChar_eq_of_similar _ _ (Or.inr ⟨by simp, hb⟩)
    · exact normChar_eq_of_similar a b hab)

/-! ## Claim theorems -/

/-- C1: names that differ only by letter case or by substituting among
underscore, dot and dash yield `PyPiPackageName` values that compare equal
under `==` and have equal hashes; in general, two constructed values
compare equal exactly when their comparable forms agree character for
character. -/
theorem packageName_equality_iff_comparable (s t : String)
    (h : List.Forall₂ charSimilar s.data t.data) :
    (pyPiPackageName s).pyEqOp (.pkgName (pyPiPackageName t)) = .ok true
    ∧ (pyPiPackageName s).hashPy = (pyPiPackageName t).hashPy
    ∧ ∀ u v : String,
        ((pyPiPackageName u).pyEqOp (.pkgName (pyPiPackageName v)) = .ok true
          ↔ (comparableName u).data = (comparableName v).data) := by
  have hcmp := comparable_eq_of_similar h
  refine ⟨?_, ?_, ?_⟩
  · simp [PyPiPackageName.pyEqOp, PyPiPackageName.eqPy, pyPiPackageName, hcmp]
  · simp [PyPiPackageName.hashPy, pyPiPackageName, hcmp]
  · intro u v
    simp only [PyPiPackageName.pyEqOp, PyPiPackageName.eqPy, pyPiPackageName,
      Except.ok.injEq, beq_iff_eq]
    exact String.ext_iff

/-- Witness for C1 at the spec's own example names. -/
theorem packageName_equality_iff_comparable_witness :
    (pyPiPackageName "Foo_Bar").pyEqOp (.pkgName (pyPiPackageName "FOO.BAR")) = .ok true
    ∧ (pyPiPackageName "Foo_Bar").hashPy = (pyPiPackageName "FOO.BAR").hashPy :=
  ⟨(packageName_equality_iff_comparable "Foo_Bar" "FOO.BAR" (by decide)).1,
   (packageName_equality_iff_comparable "Foo_Bar" "FOO.BAR" (by decide)).2.1⟩

/-- C2: the three key sets computed by `main` — packages missing from the
mirror, packages only in the mirror, and packages in both — are pairwise
disjoint and together cover exactly the union of the two catalogs' key
sets. -/
theorem package_sets_partition (csv bs : Catalog) :
    Disjoint (packages_missing_from_bandersnatch csv bs) (packages_only_in_bandersnatch csv bs)
    ∧ Disjoint (packages_missing_from_bandersnatch csv bs) (packages_in_both csv bs)
    ∧ Disjoint (packages_only_in_bandersnatch csv bs) (packages_in_both csv bs)
    ∧ packages_missing_from_bandersnatch csv bs ∪ packages_only_in_bandersnatch csv bs
        ∪ packages_in_both csv bs
      = catalogKeys csv ∪ catalogKeys bs := by
  refine ⟨?_, ?_, ?_, ?_⟩
  · rw [Finset.disjoint_left]
    intro a ha hb
    simp only [packages_missing_from_bandersnatch, packages_only_in_bandersnatch,
      Finset.mem_sdiff] at ha hb
    exact hb.2 ha.1
  · rw [Finset.disjoint_left]
    intro a ha hb
    simp only [packages_missing_from_bandersnatch, packages_in_both,
      Finset.mem_sdiff, Finset.mem_inter] at ha hb
    exact ha.2 hb.1
  · rw [Finset.disjoint_left]
    intro a ha hb
    simp only [packages_only_in_bandersnatch, packages_in_both,
      Finset.mem_sdiff, Finset.mem_inter] at ha hb
    exact ha.2 hb.2
  · ext a
    simp only [packages_missing_from_bandersnatch, packages_only_in_bandersnatch,
      packages_in_both, Finset.mem_union, Finset.mem_sdiff, Finset.mem_inter]
    tauto

/-- C5: `FullFileRef.test` fails when the resolved path does not exist; when
the path exists and hash checking is enabled it succeeds exactly when the
single-pass lowercase-hex sha256 digest of the stored bytes equals the
declared hash; when the path exists and hash checking is disabled it
succeeds regardless of content. -/
theorem fullFileRef_test_spec (fs : String → Option (List Nat)) (r : FullFileRef) :
    (fs r.path = none → ∀ check_hash, FullFileRef.test fs check_hash r = false)
    ∧ (∀ data, fs r.path = some data →
        (FullFileRef.test fs true r = true ↔ sha256hex data = r.sha256hash)
        ∧ FullFileRef.test fs false r = true) := by
  constructor
  · intro h check_hash
    simp [FullFileRef.test, h]
  · intro data h
    constructor
    · rw [show FullFileRef.test fs true r
          = (if ((chunksOf 4096 data).foldl Sha256Ctx.update sha256New).hexdigest
                ≠ r.sha256hash then false else true) from by
        simp [FullFileRef.test, h]]
      rw [streamedDigest, flatten_chunksOf 4096 (by omega) data]
      by_cases he : sha256hex data = r.sha256hash <;> simp [he]
    · simp [FullFileRef.test, h]

/-- Witness for C5: a declared file absent from storage fails; an existing
file passes the existence-only check. -/
theorem fullFileRef_test_spec_witness :
    FullFileRef.test fsDemo true ⟨"n", "h", "absent"⟩ = false
    ∧ FullFileRef.test fsDemo false ⟨"n", "h", "present"⟩ = true :=
  ⟨(fullFileRef_test_spec fsDemo ⟨"n", "h", "absent"⟩).1 (by decide) true,
   ((fullFileRef_test_spec fsDemo ⟨"n", "h", "present"⟩).2 [] (by decide)).2⟩

/-- C6: feeding the chunks of any decomposition of a byte sequence, in
order, into a running sha256 yields the same hex digest as hashing the
whole sequence in one pass; in particular the scanner's 4096-byte chunking
does. -/
theorem sha256_stream_eq_single_pass (data : List Nat) (chunks : List (List Nat))
    (h : chunks.flatten = data) :
    (chunks.foldl Sha256Ctx.update sha256New).hexdigest = sha256hex data
    ∧ ((chunksOf 4096 data).foldl Sha256Ctx.update sha256New).hexdigest = sha256hex data := by
  constructor
  · rw [streamedDigest, h]
  · rw [streamedDigest, flatten_chunksOf 4096 (by omega) data]

/-- Witness for C6 at a concrete three-byte sequence split into two
chunks. -/
theorem sha256_stream_eq_single_pass_witness :
    ([[0], [1, 2]].foldl Sha256Ctx.update sha256New).hexdigest = sha256hex [0, 1, 2]
    ∧ ((chunksOf 4096 [0, 1, 2]).foldl Sha256Ctx.update sha256New).hexdigest
      = sha256hex [0, 1, 2] :=
  sha256_stream_eq_single_pass [0, 1, 2] [[0], [1, 2]] (by decide)

/-- C9: the claim fails on the code.  `Project.add_file` fetches
`versions.get(version, set())` and adds the file to the returned set, but
never stores the set back, so `versions` (the versionIndex) stays empty no
matter how many files are added under non-`None` versions — it never maps a
version to the records added under it. -/
theorem add_file_never_populates_versions (name : String)
    (ops : List (Option String × FileRef)) :
    (ops.foldl (fun p op => p.add_file op.1 op.2) (Project.init name)).versions = [] := by
  suffices h : ∀ p : Project, p.versions = []
      → (ops.foldl (fun p op => p.add_file op.1 op.2) p).versions = [] from h _ rfl
  induction ops with
  | nil => intro p h; simpa using h
  | cons op rest ih =>
    intro p h
    rw [List.foldl_cons]
    refine ih _ ?_
    match op with
    | (none, f) => simpa [Project.add_file] using h
    | (some v, f) => simp [Project.add_file, h, dictLookup]

/-- C10 counterexample: for an operand that is an instance of a proper
subclass of `PyPiPackageName` (inheriting `__eq__`), evaluating `p == o`
does not raise: CPython tries the reflected comparison first, whose
assertion about the other operand's exact type succeeds, so the comparison
returns a boolean. -/
theorem pyEqOp_subclass_counterexample :
    (pyPiPackageName "foo").pyEqOp (.pkgSubclass (pyPiPackageName "FOO")) = .ok true := by
  rfl

/-- C10 (amended): `p == o` raises an assertion failure for every operand
outside the `PyPiPackageName` class hierarchy (plain strings, `None`,
numbers), instead of returning `False`; between exact instances it returns
the comparable-form comparison, and for an instance of a proper subclass it
returns the reflected comparable-form comparison rather than raising. -/
theorem pyEqOp_asserts_outside_hierarchy (p : PyPiPackageName) (o : PyVal)
    (h : ∀ q, o ≠ .pkgName q ∧ o ≠ .pkgSubclass q) :
    p.pyEqOp o = .error "AssertionError"
    ∧ ∀ q, p.pyEqOp (.pkgName q) = .ok (p.comparable_name == q.comparable_name)
        ∧ p.pyEqOp (.pkgSubclass q) = .ok (q.comparable_name == p.comparable_name) := by
  constructor
  · match o with
    | .pkgName q => exact absurd rfl (h q).1
    | .pkgSubclass q => exact absurd rfl (h q).2
    | .strVal s => rfl
    | .noneVal => rfl
    | .intVal n => rfl
  · intro q
    exact ⟨rfl, rfl⟩

/-- Witness for C10 at a string operand. -/
theorem pyEqOp_asserts_outside_hierarchy_witness :
    (pyPiPackageName "foo").pyEqOp (.strVal "foo") = .error "AssertionError" :=
  (pyEqOp_asserts_outside_hierarchy (pyPiPackageName "foo") (.strVal "foo")
    (fun q => ⟨by simp, by simp⟩)).1

theorem mem_unionList {α β : Type} [DecidableEq β] (L : List α) (f : α → Finset β) (x : β) :
    x ∈ unionList L f ↔ ∃ a ∈ L, x ∈ f a := by
  induction L with
  | nil => simp [unionList]
  | cons a as ih =>
    simp only [unionList, List.foldr_cons, Finset.mem_union]
    rw [show List.foldr (fun a acc => f a ∪ acc) ∅ as = unionList as f from rfl, ih]
    simp

theorem mem_inBothList (csv bs : Catalog) (k : String) :
    k ∈ inBothList csv bs ↔ k ∈ packages_in_both csv bs := by
  simp [inBothList, packages_in_both, catalogKeys, List.mem_filter, Finset.mem_inter,
    List.mem_dedup]

theorem unionList_inBoth_eq_biUnion {β : Type} [DecidableEq β] (csv bs : Catalog)
    (f : String → Finset β) :
    unionList (inBothList csv bs) f = (packages_in_both csv bs).biUnion f := by
  ext x
  simp [mem_unionList, mem_inBothList, Finset.mem_biUnion]

theorem addFilesToCheck_ok (L : List (String × FileRef)) :
    ∀ st : EngineState, (∀ e ∈ L, e.2.isFull = true) →
    addFilesToCheck st L
      = .ok ⟨st.missing_files, st.unexpected_files, st.files_to_check ∪ listFullRefs L⟩ := by
  induction L with
  | nil =>
    intro st h
    cases st
    simp [addFilesToCheck, listFullRefs]
  | cons e rest ih =>
    intro st h
    match e with
    | (n, FileRef.base a b) =>
      have hb := h (n, FileRef.base a b) (by simp)
      simp [FileRef.isFull] at hb
    | (n, FileRef.full f) =>
      rw [show addFilesToCheck st ((n, FileRef.full f) :: rest)
            = addFilesToCheck { st with files_to_check := insert f st.files_to_check } rest
          from rfl,
        ih _ (fun e he => h e (by simp [he]))]
      simp [listFullRefs, List.filterMap_cons, Finset.union_insert, Finset.insert_union]

theorem engineStep_ok (csv bs : Catalog) (st : EngineState) (pk : String)
    (h : projectAllFull (catalogGet bs pk) = true) :
    engineStep csv bs st pk = .ok
      ⟨st.missing_files ∪ (fileNames (catalogGet csv pk) \ fileNames (catalogGet bs pk)),
       st.unexpected_files ∪ (fileNames (catalogGet bs pk) \ fileNames (catalogGet csv pk)),
       st.files_to_check ∪ projFullFiles (catalogGet bs pk)⟩ := by
  unfold engineStep
  rw [addFilesToCheck_ok _ _ (by simpa [projectAllFull, List.all_eq_true] using h)]
  rfl

theorem engineFold_ok (csv bs : Catalog) (L : List String) :
    ∀ st : EngineState, (∀ pk ∈ L, projectAllFull (catalogGet bs pk) = true) →
    L.foldlM (engineStep csv bs) st = .ok
      ⟨st.missing_files
         ∪ unionList L (fun pk => fileNames (catalogGet csv pk) \ fileNames (catalogGet bs pk)),
       st.unexpected_files
         ∪ unionList L (fun pk => fileNames (catalogGet bs pk) \ fileNames (catalogGet csv pk)),
       st.files_to_check ∪ unionList L (fun pk => projFullFiles (catalogGet bs pk))⟩ := by
  induction L with
  | nil =>
    intro st h
    rw [List.foldlM_nil]
    show Except.ok st = _
    simp [unionList]
  | cons pk rest ih =>
    intro st h
    rw [List.foldlM_cons, engineStep_ok csv bs st pk (h pk (by simp)),
      show ∀ (a : EngineState) (g : EngineState → Except String EngineState),
          (Except.ok a >>= g) = g a from fun a g => rfl,
      ih _ (fun q hq => h q (by simp [hq]))]
    simp [unionList, List.foldr_cons, Finset.union_assoc]

theorem runEngine_ok (csv bs : Catalog)
    (h : ∀ pk ∈ packages_in_both csv bs, projectAllFull (catalogGet bs pk) = true) :
    runEngine csv bs = .ok
      ⟨(packages_in_both csv bs).biUnion
         (fun pk => fileNames (catalogGet csv pk) \ fileNames (catalogGet bs pk)),
       (packages_in_both csv bs).biUnion
         (fun pk => fileNames (catalogGet bs pk) \ fileNames (catalogGet csv pk)),
       (packages_in_both csv bs).biUnion (fun pk => projFullFiles (catalogGet bs pk))⟩ := by
  rw [runEngine,
    engineFold_ok csv bs _ _ (fun pk hpk => h pk ((mem_inBothList csv bs pk).mp hpk))]
  simp only [Except.ok.injEq, EngineState.mk.injEq]
  refine ⟨?_, ?_, ?_⟩ <;>
    rw [unionList_inBoth_eq_biUnion, Finset.empty_union]

/-- C3: for the packages present in both catalogs, the engine accumulates
into `missing_files` exactly the authoritative filenames absent from the
mirror inventory and into `unexpected_files` exactly the mirror filenames
absent from the authoritative inventory; a filename present in both
inventories of a package contributes to neither set (accumulation is by
filename alone across packages, as the membership characterisations
show). -/
theorem engine_file_diffs (csv bs : Catalog) (st : EngineState)
    (hwf : ∀ pk ∈ packages_in_both csv bs, projectAllFull (catalogGet bs pk) = true)
    (hrun : runEngine csv bs = .ok st) :
    st.missing_files = (packages_in_both csv bs).biUnion
        (fun pk => fileNames (catalogGet csv pk) \ fileNames (catalogGet bs pk))
    ∧ st.unexpected_files = (packages_in_both csv bs).biUnion
        (fun pk => fileNames (catalogGet bs pk) \ fileNames (catalogGet csv pk))
    ∧ (∀ fname, fname ∈ st.missing_files ↔ ∃ pk ∈ packages_in_both csv bs,
          fname ∈ fileNames (catalogGet csv pk) ∧ fname ∉ fileNames (catalogGet bs pk))
    ∧ (∀ fname, fname ∈ st.unexpected_files ↔ ∃ pk ∈ packages_in_both csv bs,
          fname ∈ fileNames (catalogGet bs pk) ∧ fname ∉ fileNames (catalogGet csv pk)) := by
  have h := runEngine_ok csv bs hwf
  rw [hrun] at h
  injection h with h
  subst h
  refine ⟨rfl, rfl, ?_, ?_⟩ <;>
    · intro fname
      simp [Finset.mem_biUnion, Finset.mem_sdiff]

/-- Witness for C3 on the demo catalogs (one shared package; authoritative
files `a`, `b`; mirror files `b`, `d`). -/
theorem engine_file_diffs_witness :
    stDemo.missing_files = (packages_in_both csvDemo bsDemo).biUnion
      (fun pk => fileNames (catalogGet csvDemo pk) \ fileNames (catalogGet bsDemo pk)) :=
  (engine_file_diffs csvDemo bsDemo stDemo (by decide) rfl).1

/-- C4: `files_to_check` is exactly the union, over the packages present in
both catalogs, of all mirror-side resolvable records of those packages'
inventories, and every member of it belongs to a package that is also a key
of the authoritative catalog. -/
theorem engine_files_to_verify (csv bs : Catalog) (st : EngineState)
    (hwf : ∀ pk ∈ packages_in_both csv bs, projectAllFull (catalogGet bs pk) = true)
    (hrun : runEngine csv bs = .ok st) :
    st.files_to_check = (packages_in_both csv bs).biUnion
        (fun pk => projFullFiles (catalogGet bs pk))
    ∧ ∀ r ∈ st.files_to_check, ∃ pk, pk ∈ packages_in_both csv bs
        ∧ r ∈ projFullFiles (catalogGet bs pk) ∧ pk ∈ catalogKeys csv := by
  have h := runEngine_ok csv bs hwf
  rw [hrun] at h
  injection h with h
  subst h
  refine ⟨rfl, ?_⟩
  intro r hr
  rw [Finset.mem_biUnion] at hr
  obtain ⟨pk, hpk, hrpk⟩ := hr
  exact ⟨pk, hpk, hrpk, (Finset.mem_inter.mp hpk).2⟩

/-- Witness for C4 on the demo catalogs. -/
theorem engine_files_to_verify_witness :
    stDemo.files_to_check = (packages_in_both csvDemo bsDemo).biUnion
      (fun pk => projFullFiles (catalogGet bsDemo pk)) :=
  (engine_files_to_verify csvDemo bsDemo stDemo (by decide) rfl).1

theorem toFinset_map_fst_dictInsert {α : Type} (k : String) (v : α)
    (d : List (String × α)) :
    ((dictInsert k v d).map Prod.fst).toFinset = insert k (d.map Prod.fst).toFinset := by
  induction d with
  | nil => simp [dictInsert]
  | cons e rest ih =>
    match e with
    | (k0, v0) =>
      by_cases hk : k0 = k
      · subst hk
        simp [dictInsert]
      · simp only [dictInsert, if_neg hk, List.map_cons, List.toFinset_cons, ih]
        rw [Finset.Insert.comm]

theorem fileNames_add_file (p : Project) (v : Option String) (file : FileRef) :
    fileNames (p.add_file v file) = insert file.name (fileNames p) := by
  show ((dictInsert file.name file p.files).map Prod.fst).toFinset = _
  rw [toFinset_map_fst_dictInsert]
  rfl

theorem catalogGet_cons (k : PyPiPackageName) (proj : Project) (rest : Catalog)
    (x : String) :
    catalogGet ((k, proj) :: rest) x
      = if k.comparable_name = x then proj else catalogGet rest x := by
  by_cases h : k.comparable_name = x <;>
    simp [catalogGet, catalogFind, List.find?, h]

theorem mem_catalogKeys_addFile (key : PyPiPackageName) (raw version : String)
    (file : FileRef) (c : Catalog) (x : String) :
    x ∈ catalogKeys (catalogAddFile key raw version file c)
      ↔ x = key.comparable_name ∨ x ∈ catalogKeys c := by
  induction c with
  | nil => simp [catalogAddFile, catalogKeys]
  | cons e rest ih =>
    match e with
    | (k, proj) =>
      by_cases hk : k.comparable_name = key.comparable_name
      · simp only [catalogAddFile, if_pos hk, catalogKeys, List.map_cons,
          List.toFinset_cons, Finset.mem_insert]
        rw [hk]
        show x = key.comparable_name ∨ x ∈ catalogKeys rest
          ↔ x = key.comparable_name ∨ x = key.comparable_name ∨ x ∈ catalogKeys rest
        tauto
      · simp only [catalogAddFile, if_neg hk, catalogKeys, List.map_cons,
          List.toFinset_cons, Finset.mem_insert]
        rw [show ((catalogAddFile key raw version file rest).map
              (fun e => e.1.comparable_name)).toFinset
            = catalogKeys (catalogAddFile key raw version file rest) from rfl, ih]
        show x = k.comparable_name ∨ x = key.comparable_name ∨ x ∈ catalogKeys rest
          ↔ x = key.comparable_name ∨ x = k.comparable_name ∨ x ∈ catalogKeys rest
        tauto

theorem mem_fileNames_catalogGet_addFile (key : PyPiPackageName) (raw version : String)
    (file : FileRef) (c : Catalog) :
    file.name ∈ fileNames (catalogGet (catalogAddFile key raw version file c)
      key.comparable_name) := by
  induction c with
  | nil =>
    show file.name ∈ fileNames (catalogGet
      [(key, (Project.init raw).add_file (some version) file)] key.comparable_name)
    rw [catalogGet_cons, if_pos rfl, fileNames_add_file]
    exact Finset.mem_insert_self _ _
  | cons e rest ih =>
    match e with
    | (k, proj) =>
      by_cases hk : k.comparable_name = key.comparable_name
      · rw [show catalogAddFile key raw version file ((k, proj) :: rest)
              = (k, proj.add_file (some version) file) :: rest from by
            simp [catalogAddFile, hk],
          catalogGet_cons, if_pos hk, fileNames_add_file]
        exact Finset.mem_insert_self _ _
      · rw [show catalogAddFile key raw version file ((k, proj) :: rest)
              = (k, proj) :: catalogAddFile key raw version file rest from by
            simp [catalogAddFile, hk],
          catalogGet_cons, if_neg hk]
        exact ih

theorem fileNames_catalogGet_addFile_mono (key : PyPiPackageName) (raw version : String)
    (file : FileRef) (c : Catalog) (x fname : String)
    (h : fname ∈ fileNames (catalogGet c x)) :
    fname ∈ fileNames (catalogGet (catalogAddFile key raw version file c) x) := by
  induction c with
  | nil =>
    simp [catalogGet, catalogFind, fileNames, Project.init] at h
  | cons e rest ih =>
    match e with
    | (k, proj) =>
      rw [catalogGet_cons] at h
      by_cases hk : k.comparable_name = key.comparable_name
      · rw [show catalogAddFile key raw version file ((k, proj) :: rest)
              = (k, proj.add_file (some version) file) :: rest from by
            simp [catalogAddFile, hk],
          catalogGet_cons]
        by_cases hx : k.comparable_name = x
        · rw [if_pos hx, fileNames_add_file]
          rw [if_pos hx] at h
          exact Finset.mem_insert_of_mem h
        · rw [if_neg hx]
          rw [if_neg hx] at h
          exact h
      · rw [show catalogAddFile key raw version file ((k, proj) :: rest)
              = (k, proj) :: catalogAddFile key raw version file rest from by
            simp [catalogAddFile, hk],
          catalogGet_cons]
        by_cases hx : k.comparable_name = x
        · rw [if_pos hx]
          rw [if_pos hx] at h
          exact h
        · rw [if_neg hx]
          rw [if_neg hx] at h
          exact ih h

theorem parseGo_error_on_bad (filter : Option FilterFn) :
    ∀ (pre : List String) (bad : String) (post : List String) (acc : Catalog),
    (∀ l ∈ pre, (rowMatch (pyRstrip l.data)).isSome) →
    rowMatch (pyRstrip bad.data) = none →
    parseGo filter acc (pre ++ bad :: post)
      = .error ("Error parsing: >" ++ String.mk (pyRstrip bad.data) ++ "<") := by
  intro pre
  induction pre with
  | nil =>
    intro bad post acc _ hbad
    simp only [List.nil_append, parseGo]
    rw [hbad]
  | cons l0 pre ih =>
    intro bad post acc hpre hbad
    obtain ⟨g, hg⟩ := Option.isSome_iff_exists.mp (hpre l0 (by simp))
    obtain ⟨p, v, f, hx⟩ := g
    simp only [List.cons_append, parseGo]
    rw [hg]
    dsimp only
    by_cases hf : filterPass filter (String.mk p) (String.mk v) (String.mk f) = true
    · rw [if_pos hf]
      exact ih bad post _ (fun l hl => hpre l (by simp [hl])) hbad
    · rw [if_neg hf]
      exact ih bad post _ (fun l hl => hpre l (by simp [hl])) hbad

theorem parseGo_mono (filter : Option FilterFn) :
    ∀ (lines : List String) (acc C : Catalog),
    parseGo filter acc lines = .ok C →
    (∀ x, x ∈ catalogKeys acc → x ∈ catalogKeys C)
    ∧ (∀ x fname, fname ∈ fileNames (catalogGet acc x)
        → fname ∈ fileNames (catalogGet C x)) := by
  intro lines
  induction lines with
  | nil =>
    intro acc C h
    simp only [parseGo, Except.ok.injEq] at h
    subst h
    exact ⟨fun x hx => hx, fun x f hf => hf⟩
  | cons l0 rest ih =>
    intro acc C h
    simp only [parseGo] at h
    rcases hm : rowMatch (pyRstrip l0.data) with _ | ⟨p, v, f, hx⟩
    · rw [hm] at h
      simp at h
    · rw [hm] at h
      dsimp only at h
      by_cases hf : filterPass filter (String.mk p) (String.mk v) (String.mk f) = true
      · rw [if_pos hf] at h
        obtain ⟨hk, hn⟩ := ih _ _ h
        refine ⟨fun x hx' => hk x ?_, fun x fn hfn => hn x fn ?_⟩
        · exact (mem_catalogKeys_addFile _ _ _ _ _ _).mpr (Or.inr hx')
        · exact fileNames_catalogGet_addFile_mono _ _ _ _ _ _ _ hfn
      · rw [if_neg hf] at h
        exact ih _ _ h

theorem parseGo_folds (filter : Option FilterFn) :
    ∀ (lines : List String) (acc C : Catalog),
    parseGo filter acc lines = .ok C →
    ∀ l ∈ lines, ∀ p v f hx, rowMatch (pyRstrip l.data) = some (p, v, f, hx) →
      filterPass filter (String.mk p) (String.mk v) (String.mk f) = true →
      (pyPiPackageName (String.mk p)).comparable_name ∈ catalogKeys C
      ∧ String.mk f
          ∈ fileNames (catalogGet C (pyPiPackageName (String.mk p)).comparable_name) := by
  intro lines
  induction lines with
  | nil =>
    intro acc C h l hl
    simp at hl
  | cons l0 rest ih =>
    intro acc C h l hl p v f hx hm hpass
    simp only [parseGo] at h
    rw [List.mem_cons] at hl
    rcases hl with rfl | hl
    · rw [hm] at h
      dsimp only at h
      rw [if_pos hpass] at h
      have hmono := parseGo_mono filter rest _ _ h
      constructor
      · exact hmono.1 _ ((mem_catalogKeys_addFile _ _ _ _ _ _).mpr (Or.inl rfl))
      · exact hmono.2 _ _ (mem_fileNames_catalogGet_addFile
          (pyPiPackageName (String.mk p)) (String.mk p) (String.mk v)
          (FileRef.base (String.mk f) (String.mk hx)) acc)
    · rcases hm0 : rowMatch (pyRstrip l0.data) with _ | ⟨p0, v0, f0, h0⟩
      · rw [hm0] at h
        simp at h
      · rw [hm0] at h
        dsimp only at h
        by_cases hf0 : filterPass filter (String.mk p0) (String.mk v0) (String.mk f0) = true
        · rw [if_pos hf0] at h
          exact ih _ _ h l hl p v f hx hm hpass
        · rw [if_neg hf0] at h
          exact ih _ _ h l hl p v f hx hm hpass

theorem parseGo_skip (filter : Option FilterFn) (l : String) (p v f hx : List Char)
    (hm : rowMatch (pyRstrip l.data) = some (p, v, f, hx))
    (hrej : filterPass filter (String.mk p) (String.mk v) (String.mk f) = false) :
    ∀ (pre post : List String) (acc : Catalog),
    parseGo filter acc (pre ++ l :: post) = parseGo filter acc (pre ++ post) := by
  intro pre
  induction pre with
  | nil =>
    intro post acc
    simp only [List.nil_append, parseGo]
    rw [hm]
    dsimp only
    rw [if_neg (by simp [hrej])]
  | cons l0 pre ih =>
    intro post acc
    simp only [List.cons_append, parseGo]
    rcases hm0 : rowMatch (pyRstrip l0.data) with _ | ⟨p0, v0, f0, h0⟩
    · rfl
    · dsimp only
      by_cases hf0 : filterPass filter (String.mk p0) (String.mk v0) (String.mk f0) = true
      · rw [if_pos hf0, if_pos hf0]
        exact ih post _
      · rw [if_neg hf0, if_neg hf0]
        exact ih post _

/-- C7: parsing the authoritative file aborts with an error naming the
(rstripped) content of the first line that fails the row pattern, returning
no catalog at all; conversely, whenever parsing succeeds, every line that
matched the pattern and passed the filter has been folded into the returned
catalog — its package identity is a key and its filename is in that
package's inventory. -/
theorem parse_files_txt_error_and_fold (filter : Option FilterFn) (lines : List String) :
    (∀ pre bad post, lines = pre ++ bad :: post →
      (∀ l ∈ pre, (rowMatch (pyRstrip l.data)).isSome) →
      rowMatch (pyRstrip bad.data) = none →
      parse_files_txt filter lines
        = .error ("Error parsing: >" ++ String.mk (pyRstrip bad.data) ++ "<"))
    ∧ ∀ C, parse_files_txt filter lines = .ok C →
      ∀ l ∈ lines, ∀ p v f hx, rowMatch (pyRstrip l.data) = some (p, v, f, hx) →
        filterPass filter (String.mk p) (String.mk v) (String.mk f) = true →
        (pyPiPackageName (String.mk p)).comparable_name ∈ catalogKeys C
        ∧ String.mk f
            ∈ fileNames (catalogGet C (pyPiPackageName (String.mk p)).comparable_name) := by
  constructor
  · intro pre bad post hsplit hpre hbad
    rw [hsplit]
    exact parseGo_error_on_bad filter pre bad post [] hpre hbad
  · intro C h
    exact parseGo_folds filter lines [] C h

/-- Witness for C7: the demo line parses and lands in the catalog. -/
theorem parse_files_txt_error_and_fold_witness :
    (pyPiPackageName "Pkg.A").comparable_name ∈ catalogKeys parsedDemo
    ∧ "a" ∈ fileNames (catalogGet parsedDemo (pyPiPackageName "Pkg.A").comparable_name) :=
  (parse_files_txt_error_and_fold none linesDemo).2 parsedDemo rfl
    ("Pkg.A,1.0,a," ++ hexA64) (by simp [linesDemo])
    "Pkg.A".data "1.0".data "a".data hexA64.data (by decide) (by decide)

/-- C8: a row that matches the pattern but is rejected by the inclusion
predicate leaves every output of the run — all four discrepancy reports,
the verification candidates and the bad-files output — exactly as if the
row were not in the authoritative file at all. -/
theorem filtered_rows_invisible (fs : String → Option (List Nat)) (check_hashes : Bool)
    (filter : Option FilterFn) (bs : Catalog) (pre post : List String) (l : String)
    (p v f hx : List Char)
    (hm : rowMatch (pyRstrip l.data) = some (p, v, f, hx))
    (hrej : filterPass filter (String.mk p) (String.mk v) (String.mk f) = false) :
    runAll fs check_hashes filter (pre ++ l :: post) bs
      = runAll fs check_hashes filter (pre ++ post) bs := by
  unfold runAll
  rw [show parse_files_txt filter (pre ++ l :: post)
      = parse_files_txt filter (pre ++ post) from
    parseGo_skip filter l p v f hx hm hrej pre post []]

/-- Witness for C8: dropping the rejected `drop` row does not change the
run's outputs. -/
theorem filtered_rows_invisible_witness :
    runAll fsDemo false (some filterKeepDemo)
        ["keep,1.0,g," ++ hexA64, "drop,1.0,h," ++ hexA64] []
      = runAll fsDemo false (some filterKeepDemo) ["keep,1.0,g," ++ hexA64] [] :=
  filtered_rows_invisible fsDemo false (some filterKeepDemo) []
    ["keep,1.0,g," ++ hexA64] [] ("drop,1.0,h," ++ hexA64)
    "drop".data "1.0".data "h".data hexA64.data (by decide) (by decide)

end VerifyBandersnatch
